import Mathlib

/-!
Verification of the indicator / signal / mover-ranking core of
`streamlit_app.py` (intraday equity-signal scanner).

Shallow embedding conventions:
* Python/pandas float values are modelled over `ℚ`.  A float cell that can
  be NaN (or a value whose float computation is non-finite, e.g. `x / 0`
  giving `inf` or `0 / 0` giving NaN) is modelled as `Option ℚ` with `none`
  for the non-finite / undefined case.
* A pandas row cell, as seen by `compute_signal`, is a `PyVal`:
  a numeric float (`num`), the float NaN (`nan`), or a non-float object
  (`obj`, which makes `np.isnan` and `<`/`>` comparisons raise `TypeError`).
  A missing column is `Option.none` at the row level (access raises
  `KeyError`).
* Exceptions are modelled with `Except String`; the `try/except` in
  `compute_signal` is the outer `match` in `compute_signal` below.
-/

/-- A float-like cell of a pandas row: a number, NaN, or a non-float object. -/
inductive PyVal where
  | num (q : ℚ)
  | nan
  | obj
deriving DecidableEq

/-- The tri-state trading signal emitted by `compute_signal`. -/
inductive Signal where
  | BUY
  | SELL
  | HOLD
deriving DecidableEq

/-- The row (`latest_row : pd.Series`) consumed by `compute_signal`:
only the six columns the function accesses are modelled; `none` models a
missing column (access raises `KeyError`). -/
structure Row where
  close : Option PyVal
  vwap : Option PyVal
  ema9 : Option PyVal
  ema21 : Option PyVal
  rsi6 : Option PyVal
  vol_ratio : Option PyVal
deriving DecidableEq

/-- Column access `row[key]`: a missing key raises `KeyError` (message approximates the
Python exception text). -/
def getCol (v : Option PyVal) (key : String) : Except String PyVal :=
  match v with
  | some x => .ok x
  | none => .error ("KeyError: " ++ key)

/-- Is the cell the float NaN? -/
def isNanB : PyVal → Bool
  | .nan => true
  | _ => false

/-- Is the cell a non-float object (on which `np.isnan` raises)? -/
def isObjB : PyVal → Bool
  | .obj => true
  | _ => false

/-- The check `np.isnan([...]).any()`: raises `TypeError` if any element is not a
float, otherwise reports whether some element is NaN. -/
def isnanAny (vals : List PyVal) : Except String Bool :=
  if vals.any isObjB then .error "TypeError: isnan not supported"
  else .ok (vals.any isNanB)

/-- Python `a > b` on row cells: NaN compares false against numbers
(and NaN), a non-float object raises `TypeError`. -/
def pyGt : PyVal → PyVal → Except String Bool
  | .num a, .num b => .ok (decide (b < a))
  | .obj, _ => .error "TypeError: unorderable"
  | _, .obj => .error "TypeError: unorderable"
  | _, _ => .ok false

/-- Python `a < b` on row cells (same NaN/object semantics as `pyGt`). -/
def pyLt : PyVal → PyVal → Except String Bool
  | .num a, .num b => .ok (decide (a < b))
  | .obj, _ => .error "TypeError: unorderable"
  | _, .obj => .error "TypeError: unorderable"
  | _, _ => .ok false

/-- Python `a >= c` against a float literal `c`. -/
def pyGe (a : PyVal) (c : ℚ) : Except String Bool :=
  match a with
  | .num q => .ok (decide (c ≤ q))
  | .nan => .ok false
  | .obj => .error "TypeError: unorderable"

/-- Python `a <= c` against a float literal `c`. -/
def pyLe (a : PyVal) (c : ℚ) : Except String Bool :=
  match a with
  | .num q => .ok (decide (q ≤ c))
  | .nan => .ok false
  | .obj => .error "TypeError: unorderable"

/-- Python short-circuit `and` over possibly-raising boolean operands:
if the left operand is `False` the right operand is never evaluated, so a
`TypeError` pending there is not raised. -/
def pyAnd (a b : Except String Bool) : Except String Bool :=
  match a with
  | .error e => .error e
  | .ok false => .ok false
  | .ok true => b

/-- The `buy_cond` of `compute_signal` (source lines 70–75):
`(price > vwap) and (ema9 > ema21) and (rsi6 >= 55 and rsi6 <= 70) and
(vol_ratio >= 1.5)`. -/
def buy_cond (price vwap ema9 ema21 rsi6 vr : PyVal) : Except String Bool :=
  pyAnd (pyAnd (pyAnd (pyGt price vwap) (pyGt ema9 ema21))
      (pyAnd (pyGe rsi6 55) (pyLe rsi6 70)))
    (pyGe vr (3/2))

/-- The `sell_cond` of `compute_signal` (source lines 77–82):
`(price < vwap) and (ema9 < ema21) and (rsi6 >= 30 and rsi6 <= 45) and
(vol_ratio >= 1.3)`. -/
def sell_cond (price vwap ema9 ema21 rsi6 vr : PyVal) : Except String Bool :=
  pyAnd (pyAnd (pyAnd (pyLt price vwap) (pyLt ema9 ema21))
      (pyAnd (pyGe rsi6 30) (pyLe rsi6 45)))
    (pyGe vr (13/10))

/-- The body of the `try:` block of `compute_signal` (source lines 58–89):
sequential column access, then the NA check, then both condition
assignments, then the three-way branch. -/
def signalBody (row : Row) : Except String (Signal × String) := do
  let price ← getCol row.close "Close"
  let vwap ← getCol row.vwap "VWAP"
  let ema9 ← getCol row.ema9 "EMA9"
  let ema21 ← getCol row.ema21 "EMA21"
  let rsi6 ← getCol row.rsi6 "RSI6"
  let vr ← getCol row.vol_ratio "vol_ratio"
  let anyNan ← isnanAny [vwap, ema9, ema21, rsi6, vr]
  if anyNan then
    return (.HOLD, "Insufficient data")
  else
    let bc ← buy_cond price vwap ema9 ema21 rsi6 vr
    let sc ← sell_cond price vwap ema9 ema21 rsi6 vr
    if bc then
      return (.BUY, "Above VWAP + EMA9>EMA21 + RSI in [55-70] + Vol>=1.5x")
    else if sc then
      return (.SELL, "Below VWAP + EMA9<EMA21 + RSI in [30-45] + Vol>=1.3x")
    else
      return (.HOLD, "Neutral/No clear setup")

/-- Function `compute_signal` (source lines 56–91): the `try/except Exception`
wrapper converts any raised exception into `("HOLD", f"Error in signal: {e}")`. -/
def compute_signal (row : Row) : Signal × String :=
  match signalBody row with
  | .ok out => out
  | .error e => (.HOLD, "Error in signal: " ++ e)

deriving instance DecidableEq for Except

/-- A row whose six modelled cells are all defined numbers. -/
def numRow (p v e9 e21 r6 vr : ℚ) : Row :=
  ⟨some (.num p), some (.num v), some (.num e9), some (.num e21),
    some (.num r6), some (.num vr)⟩

theorem pyAnd_ok_ok (a b : Bool) : pyAnd (.ok a) (.ok b) = .ok (a && b) := by
  cases a <;> rfl

/-- On all-numeric cells `buy_cond` evaluates without raising, to the
conjunction of its four threshold comparisons. -/
theorem buy_cond_num (p v e9 e21 r6 vr : ℚ) :
    buy_cond (.num p) (.num v) (.num e9) (.num e21) (.num r6) (.num vr) =
      .ok (decide (v < p) && decide (e21 < e9) &&
        (decide (55 ≤ r6) && decide (r6 ≤ 70)) && decide (3/2 ≤ vr)) := by
  simp only [buy_cond, pyGt, pyGe, pyLe, pyAnd_ok_ok]

/-- On all-numeric cells `sell_cond` evaluates without raising, to the
conjunction of its four threshold comparisons. -/
theorem sell_cond_num (p v e9 e21 r6 vr : ℚ) :
    sell_cond (.num p) (.num v) (.num e9) (.num e21) (.num r6) (.num vr) =
      .ok (decide (p < v) && decide (e9 < e21) &&
        (decide (30 ≤ r6) && decide (r6 ≤ 45)) && decide (13/10 ≤ vr)) := by
  simp only [sell_cond, pyLt, pyGe, pyLe, pyAnd_ok_ok]

/-- On a fully-numeric row `compute_signal` reduces to the three-way
threshold branch of the source. -/
theorem compute_signal_numRow (p v e9 e21 r6 vr : ℚ) :
    compute_signal (numRow p v e9 e21 r6 vr) =
      if v < p ∧ e21 < e9 ∧ (55 ≤ r6 ∧ r6 ≤ 70) ∧ 3/2 ≤ vr then
        (.BUY, "Above VWAP + EMA9>EMA21 + RSI in [55-70] + Vol>=1.5x")
      else if p < v ∧ e9 < e21 ∧ (30 ≤ r6 ∧ r6 ≤ 45) ∧ 13/10 ≤ vr then
        (.SELL, "Below VWAP + EMA9<EMA21 + RSI in [30-45] + Vol>=1.3x")
      else (.HOLD, "Neutral/No clear setup") := by
  simp only [compute_signal, signalBody, numRow, getCol, isnanAny, List.any,
    isObjB, isNanB, Bool.or_false, Bool.or_self, if_neg, bind, Except.bind,
    buy_cond_num, sell_cond_num, pure, Except.pure, Bool.false_eq_true,
    if_false]
  simp only [Bool.and_eq_true, decide_eq_true_eq, and_assoc]
  split_ifs <;> rfl

/-- C1: on a snapshot whose close, VWAP, EMA9, EMA21, RSI6 and volume-ratio
are all defined numbers, `compute_signal` returns BUY iff
close > VWAP ∧ EMA9 > EMA21 ∧ 55 ≤ RSI6 ≤ 70 ∧ vol-ratio ≥ 1.5, SELL iff
close < VWAP ∧ EMA9 < EMA21 ∧ 30 ≤ RSI6 ≤ 45 ∧ vol-ratio ≥ 1.3, and
otherwise HOLD with the neutral reason string. -/
theorem c1_classifier_iff (p v e9 e21 r6 vr : ℚ) :
    ((compute_signal (numRow p v e9 e21 r6 vr)).1 = .BUY ↔
      (v < p ∧ e21 < e9 ∧ (55 ≤ r6 ∧ r6 ≤ 70) ∧ 3/2 ≤ vr)) ∧
    ((compute_signal (numRow p v e9 e21 r6 vr)).1 = .SELL ↔
      (p < v ∧ e9 < e21 ∧ (30 ≤ r6 ∧ r6 ≤ 45) ∧ 13/10 ≤ vr)) ∧
    (¬(v < p ∧ e21 < e9 ∧ (55 ≤ r6 ∧ r6 ≤ 70) ∧ 3/2 ≤ vr) →
      ¬(p < v ∧ e9 < e21 ∧ (30 ≤ r6 ∧ r6 ≤ 45) ∧ 13/10 ≤ vr) →
      compute_signal (numRow p v e9 e21 r6 vr) =
        (.HOLD, "Neutral/No clear setup")) := by
  have hkey := compute_signal_numRow p v e9 e21 r6 vr
  by_cases hb : v < p ∧ e21 < e9 ∧ (55 ≤ r6 ∧ r6 ≤ 70) ∧ 3/2 ≤ vr
  · by_cases hs : p < v ∧ e9 < e21 ∧ (30 ≤ r6 ∧ r6 ≤ 45) ∧ 13/10 ≤ vr
    · exact absurd hs.1 (lt_asymm hb.1)
    · rw [if_pos hb] at hkey
      rw [hkey]
      exact ⟨by simp [hb], by simp [hs], fun h _ => absurd hb h⟩
  · rw [if_neg hb] at hkey
    by_cases hs : p < v ∧ e9 < e21 ∧ (30 ≤ r6 ∧ r6 ≤ 45) ∧ 13/10 ≤ vr
    · rw [if_pos hs] at hkey
      rw [hkey]
      exact ⟨by simp [hb], by simp [hs], fun _ h => absurd hs h⟩
    · rw [if_neg hs] at hkey
      rw [hkey]
      exact ⟨by simp [hb], by simp [hs], fun _ _ => rfl⟩

/-- C1 witness: a concrete all-defined snapshot on which the BUY branch of
`c1_classifier_iff` fires. -/
theorem c1_classifier_iff_witness :
    (compute_signal (numRow 100 90 10 5 60 2)).1 = .BUY :=
  (c1_classifier_iff 100 90 10 5 60 2).1.mpr (by norm_num)

/-- C2 (amended): if every accessed column is present, the five checked
indicator cells are floats, and at least one of them is NaN, then
`compute_signal` returns HOLD with reason "Insufficient data" — the NA
check fires before any threshold comparison, whatever the close cell and
the numeric values are. -/
theorem c2_nan_short_circuit (c v1 v2 v3 v4 v5 : PyVal)
    (hobj : isObjB v1 = false ∧ isObjB v2 = false ∧ isObjB v3 = false ∧
      isObjB v4 = false ∧ isObjB v5 = false)
    (hnan : v1 = .nan ∨ v2 = .nan ∨ v3 = .nan ∨ v4 = .nan ∨ v5 = .nan) :
    compute_signal ⟨some c, some v1, some v2, some v3, some v4, some v5⟩ =
      (.HOLD, "Insufficient data") := by
  obtain ⟨h1, h2, h3, h4, h5⟩ := hobj
  have hnanb : (isNanB v1 || (isNanB v2 || (isNanB v3 ||
      (isNanB v4 || isNanB v5)))) = true := by
    rcases hnan with h | h | h | h | h <;> simp [h, isNanB]
  simp [compute_signal, signalBody, getCol, isnanAny, List.any, h1, h2, h3,
    h4, h5, hnanb, bind, Except.bind, pure, Except.pure]

/-- C2 witness: a concrete snapshot with RSI6 = NaN yields
("HOLD", "Insufficient data"). -/
theorem c2_nan_short_circuit_witness :
    compute_signal ⟨some (.num 100), some (.num 90), some (.num 10),
      some (.num 5), some .nan, some (.num 2)⟩ =
      (.HOLD, "Insufficient data") :=
  c2_nan_short_circuit (.num 100) (.num 90) (.num 10) (.num 5) .nan (.num 2)
    (by simp [isObjB]) (by simp)

/-- C2 counterexample: the code spells the reason "Insufficient data",
not "insufficient data" as the claim quotes, so the claim's exact reason
string never appears. -/
theorem c2_reason_case_counterexample :
    compute_signal ⟨some (.num 100), some (.num 90), some (.num 10),
      some (.num 5), some .nan, some (.num 2)⟩ ≠
      (Signal.HOLD, "insufficient data") := by decide!

/-- C3: the BUY condition and SELL condition of `compute_signal` are
mutually exclusive — on any assignment of numeric values, if `buy_cond`
evaluates to True then `sell_cond` evaluates to False. -/
theorem c3_buy_sell_exclusive (p v e9 e21 r6 vr : ℚ)
    (hbuy : buy_cond (.num p) (.num v) (.num e9) (.num e21) (.num r6)
      (.num vr) = .ok true) :
    sell_cond (.num p) (.num v) (.num e9) (.num e21) (.num r6) (.num vr) =
      .ok false := by
  rw [buy_cond_num] at hbuy
  rw [sell_cond_num]
  simp only [Except.ok.injEq, Bool.and_eq_true, decide_eq_true_eq] at hbuy ⊢
  have hvp : v < p := hbuy.1.1.1
  simp [lt_asymm hvp]

/-- C3 witness: a concrete snapshot satisfying the BUY condition, on which
the SELL condition is therefore false. -/
theorem c3_buy_sell_exclusive_witness :
    buy_cond (.num 100) (.num 90) (.num 10) (.num 5) (.num 60) (.num 2) =
        .ok true ∧
      sell_cond (.num 100) (.num 90) (.num 10) (.num 5) (.num 60) (.num 2) =
        .ok false := by
  have hb : buy_cond (.num 100) (.num 90) (.num 10) (.num 5) (.num 60)
      (.num 2) = .ok true := by decide!
  exact ⟨hb, c3_buy_sell_exclusive 100 90 10 5 60 2 hb⟩

/-- C8: `compute_signal` is total: on every snapshot — including malformed
ones whose field access or comparison raises inside the `try:` body — it
returns one of BUY/SELL/HOLD with a reason string, and whenever the body
raises it degrades to HOLD with an explanatory reason. -/
theorem c8_never_raises (row : Row) :
    ((compute_signal row).1 = .BUY ∨ (compute_signal row).1 = .SELL ∨
      (compute_signal row).1 = .HOLD) ∧
    (∀ e, signalBody row = .error e →
      compute_signal row = (.HOLD, "Error in signal: " ++ e)) := by
  constructor
  · cases h : (compute_signal row).1 <;> simp
  · intro e he
    simp [compute_signal, he]

/-- C8 witness: a malformed snapshot (no columns at all) raises KeyError in
the body and `compute_signal` degrades it to HOLD with an error reason. -/
theorem c8_never_raises_witness :
    signalBody ⟨none, none, none, none, none, none⟩ =
        .error "KeyError: Close" ∧
      compute_signal ⟨none, none, none, none, none, none⟩ =
        (.HOLD, "Error in signal: KeyError: Close") :=
  ⟨rfl, (c8_never_raises ⟨none, none, none, none, none, none⟩).2 _ rfl⟩

/-! ## Indicator engine (`compute_indicators`, source lines 31–53)

The DataFrame is modelled as a `Frame`: the raw OHLCV bars plus one
optional field per derived column (`none` = the column has not been
assigned).  The source mutates `df` in place (`df['TPV'] = ...` etc.) and
returns the same object, so the `Frame` returned by `compute_indicators`
is also the post-call value of the caller's argument.

Library calls are embedded from their pandas / pandas_ta semantics:
* `ta.ema(close, length)` (pandas_ta default `sma=True`, `adjust=False`):
  `None` if the series is shorter than `length`; otherwise the first
  `length-1` entries are NaN, the entry at `length-1` is the simple mean of
  the first `length` closes, and later entries follow the recurrence
  `ema[i] = α·close[i] + (1-α)·ema[i-1]` with `α = 2/(length+1)`.
* `ta.rsi(close, length)` uses Wilder averages via
  `ewm(alpha=1/length, min_periods=length)` (pandas default `adjust=True`)
  over the clipped one-step differences.
* `ta.atr(high, low, close, length)` applies the same `ewm` smoothing to
  the true range, whose first entry is NaN.
* Float divisions whose result is non-finite (`x/0`, `0/0`) are modelled
  as undefined (`none`).
-/

/-- One OHLCV bar of a downloaded series. -/
structure Bar where
  open_ : ℚ
  high : ℚ
  low : ℚ
  close : ℚ
  volume : ℚ
deriving DecidableEq

/-- pandas `Series.cumsum`: running partial sums, same length. -/
def cumsum : List ℚ → List ℚ
  | [] => []
  | x :: xs => x :: (cumsum xs).map (x + ·)

/-- One step of `ewm(adjust=False)`: the first valid observation seeds the
mean, later valid observations update it by `α·x + (1-α)·m`, and a NaN
observation leaves the running mean unchanged. -/
def ewmStep (a : ℚ) (st x : Option ℚ) : Option ℚ :=
  match st, x with
  | none, none => none
  | none, some v => some v
  | some m, none => some m
  | some m, some v => some (a * v + (1 - a) * m)

/-- Output of `ewm(adjust=False).mean`: it outputs the running mean after each step. -/
def ewmMeanAux (a : ℚ) (st : Option ℚ) : List (Option ℚ) → List (Option ℚ)
  | [] => []
  | x :: xs =>
    let st' := ewmStep a st x
    st' :: ewmMeanAux a st' xs

/-- pandas `Series.ewm(alpha=a, adjust=False).mean()`. -/
def ewmMean (a : ℚ) (xs : List (Option ℚ)) : List (Option ℚ) :=
  ewmMeanAux a none xs

/-- Library call `ta.ema(close, length=N)`: pandas_ta `ema` with its default SMA seed
(`sma=True`): returns an all-NaN column when fewer than `N` closes exist
(`verify_series`), else NaN for the first `N-1` bars, the SMA of the first
`N` closes at bar `N-1`, and the `α = 2/(N+1)` recurrence afterwards. -/
def ta_ema (N : ℕ) (closes : List ℚ) : List (Option ℚ) :=
  if closes.length < N then closes.map (fun _ => none)
  else
    ewmMean (2 / (N + 1 : ℚ))
      (List.replicate (N - 1) none ++
        some ((closes.take N).sum / (N : ℚ)) :: (closes.drop N).map some)

/-- Weighted sums of `ewm(adjust=True, ignore_na=False)` over a prefix:
returns (weighted sum, weight sum, count of valid observations), each
earlier observation damped by `(1-a)` per later position. -/
def ewmAdjSums (a : ℚ) (pre : List (Option ℚ)) : ℚ × ℚ × ℕ :=
  pre.foldl
    (fun acc x =>
      match x with
      | none => ((1 - a) * acc.1, (1 - a) * acc.2.1, acc.2.2)
      | some v => ((1 - a) * acc.1 + v, (1 - a) * acc.2.1 + 1, acc.2.2 + 1))
    (0, 0, 0)

/-- pandas `Series.ewm(alpha=a, min_periods=minp).mean()` with the default
`adjust=True`: NaN until `minp` valid observations have been seen,
otherwise the damped weighted average of the valid prefix. -/
def ewmAdjMean (a : ℚ) (minp : ℕ) (xs : List (Option ℚ)) : List (Option ℚ) :=
  (List.range xs.length).map fun t =>
    let s := ewmAdjSums a (xs.take (t + 1))
    if s.2.2 < minp then none
    else if s.2.1 = 0 then none
    else some (s.1 / s.2.1)

/-- Series difference `close.diff(1)`: NaN first entry, then one-step differences. -/
def diff1 (closes : List ℚ) : List (Option ℚ) :=
  match closes with
  | [] => []
  | _ :: _ =>
    none :: List.zipWith (fun cur prev => some (cur - prev))
      (closes.drop 1) closes

/-- Library call `ta.rsi(close, length=N)`: all-NaN column when the series is shorter
than `N`; otherwise Wilder RSI: clipped gains and losses of `diff(1)`,
both smoothed by `rma` = `ewm(alpha=1/N, min_periods=N, adjust=True)`,
then `100·pos/(pos+neg)` (NaN when the denominator is zero). -/
def ta_rsi (N : ℕ) (closes : List ℚ) : List (Option ℚ) :=
  if closes.length < N then closes.map (fun _ => none)
  else
    let d := diff1 closes
    let pos := d.map (fun x => x.map (fun q => max q 0))
    let neg := d.map (fun x => x.map (fun q => max (-q) 0))
    let pa := ewmAdjMean (1 / (N : ℚ)) N pos
    let na := ewmAdjMean (1 / (N : ℚ)) N neg
    List.zipWith
      (fun p n =>
        match p, n with
        | some p, some n => if p + n = 0 then none else some (100 * p / (p + n))
        | _, _ => none)
      pa na

/-- True range of successive bars: NaN at the first bar, then
`max(|high-low|, |high-prev_close|, |prev_close-low|)`. -/
def trueRangeAux (pc : ℚ) : List Bar → List (Option ℚ)
  | [] => []
  | b :: bs =>
    some (max |b.high - b.low| (max |b.high - pc| |pc - b.low|)) ::
      trueRangeAux b.close bs

/-- Library call `ta.true_range(high, low, close, drift=1)`. -/
def trueRange : List Bar → List (Option ℚ)
  | [] => []
  | b :: bs => none :: trueRangeAux b.close bs

/-- Library call `ta.atr(high, low, close, length=N)` with its default `mamode="rma"`:
all-NaN column when the series is shorter than `N`, otherwise
`rma(true_range, N)`. -/
def ta_atr (N : ℕ) (bars : List Bar) : List (Option ℚ) :=
  if bars.length < N then bars.map (fun _ => none)
  else ewmAdjMean (1 / (N : ℚ)) N (trueRange bars)

/-- Rolling mean `Volume.rolling(window=20, min_periods=1).mean()`: mean over the
trailing window of up to 20 entries (always defined). -/
def rollingMean20 (vols : List ℚ) : List ℚ :=
  (List.range vols.length).map fun i =>
    let w := (vols.take (i + 1)).drop (i + 1 - 20)
    w.sum / (w.length : ℚ)

/-- The DataFrame handled by `compute_indicators`: raw bars plus the
derived columns the function assigns; `none` marks a column that has not
been added. -/
structure Frame where
  bars : List Bar
  tpv : Option (List ℚ) := none
  cum_tpv : Option (List ℚ) := none
  cum_vol : Option (List ℚ) := none
  vwap : Option (List (Option ℚ)) := none
  ema9 : Option (List (Option ℚ)) := none
  ema21 : Option (List (Option ℚ)) := none
  rsi6 : Option (List (Option ℚ)) := none
  atr : Option (List (Option ℚ)) := none
  atr_pct : Option (List (Option ℚ)) := none
  vol_mean20 : Option (List ℚ) := none
  vol_ratio : Option (List (Option ℚ)) := none
deriving DecidableEq

/-- A freshly downloaded OHLCV frame: no derived columns yet. -/
def rawFrame (bars : List Bar) : Frame := { bars := bars }

/-- Function `compute_indicators(df)` (source lines 31–53).  Empty input is
returned unchanged; otherwise every derived column is assigned in source
order.  The source mutates and returns the same DataFrame object, so this
value is also the post-call state of the argument. -/
def compute_indicators (f : Frame) : Frame :=
  if f.bars = [] then f
  else
    let tpvL := f.bars.map fun b => (b.high + b.low + b.close) / 3 * b.volume
    let cumT := cumsum tpvL
    let cumV := cumsum (f.bars.map (·.volume))
    let closes := f.bars.map (·.close)
    let atrL := ta_atr 14 f.bars
    let volMeanL := rollingMean20 (f.bars.map (·.volume))
    { f with
      tpv := some tpvL
      cum_tpv := some cumT
      cum_vol := some cumV
      vwap := some (List.zipWith
        (fun t v => if v = 0 then none else some (t / v)) cumT cumV)
      ema9 := some (ta_ema 9 closes)
      ema21 := some (ta_ema 21 closes)
      rsi6 := some (ta_rsi 6 closes)
      atr := some atrL
      atr_pct := some (List.zipWith
        (fun a c => match a with
          | none => none
          | some x => if c = 0 then none else some (x / c * 100)) atrL closes)
      vol_mean20 := some volMeanL
      vol_ratio := some (List.zipWith
        (fun v m => if m = 0 then none else some (v / m))
        (f.bars.map (·.volume)) volMeanL) }

/-- C9 (amended): `compute_indicators` preserves the raw OHLCV data — the
enriched frame keeps exactly the input bars — and, being a pure function
of its argument, it is deterministic and performs no I/O.  (The source
adds the derived columns to the input DataFrame itself and returns that
same object, so the caller's frame after the call equals the returned
enriched frame, not the original raw frame.) -/
theorem c9_bars_preserved (f : Frame) :
    (compute_indicators f).bars = f.bars := by
  unfold compute_indicators
  split <;> rfl

/-- C9 counterexample: on a concrete non-empty frame the enriched frame
differs from the input frame (derived columns were added in place), so the
input object is *not* unchanged after the call. -/
theorem c9_mutation_counterexample :
    compute_indicators (rawFrame [⟨100, 120, 90, 110, 1000⟩]) ≠
      rawFrame [⟨100, 120, 90, 110, 1000⟩] := by decide!

/-- The claim's canonical EMA shape, stated from the spec sentence the
code actually satisfies: NaN for the first `N-1` bars, the simple moving
average of the first `N` closes at bar `N-1`, then the standard
`α = 2/(N+1)` recurrence. -/
def emaScan (a m : ℚ) : List ℚ → List ℚ
  | [] => []
  | x :: xs => (a * x + (1 - a) * m) :: emaScan a (a * x + (1 - a) * m) xs

/-- SMA-seeded EMA specification: warm-up NaNs, SMA seed, recurrence. -/
def ema_spec_sma (N : ℕ) (closes : List ℚ) : List (Option ℚ) :=
  List.replicate (N - 1) none ++
    some ((closes.take N).sum / (N : ℚ)) ::
      (emaScan (2 / (N + 1 : ℚ)) ((closes.take N).sum / (N : ℚ))
        (closes.drop N)).map some

theorem ewmMeanAux_replicate_none (a : ℚ) (k : ℕ) (ys : List (Option ℚ)) :
    ewmMeanAux a none (List.replicate k none ++ ys) =
      List.replicate k none ++ ewmMeanAux a none ys := by
  induction k with
  | zero => rfl
  | succ n ih => simp [List.replicate_succ, ewmMeanAux, ewmStep, ih]

theorem ewmMeanAux_some_cons (a s : ℚ) (ys : List (Option ℚ)) :
    ewmMeanAux a none (some s :: ys) = some s :: ewmMeanAux a (some s) ys := by
  simp [ewmMeanAux, ewmStep]

theorem ewmMeanAux_map_some (a m : ℚ) (xs : List ℚ) :
    ewmMeanAux a (some m) (xs.map some) = (emaScan a m xs).map some := by
  induction xs generalizing m with
  | nil => rfl
  | cons x t ih => simp [ewmMeanAux, ewmStep, emaScan, ih]

/-- Theorem: `ta.ema` refines the SMA-seeded EMA specification whenever the series
is long enough for the column to be produced at all. -/
theorem ta_ema_eq_sma_spec (N : ℕ) (closes : List ℚ)
    (h : N ≤ closes.length) :
    ta_ema N closes = ema_spec_sma N closes := by
  unfold ta_ema ema_spec_sma
  rw [if_neg (by omega)]
  rw [ewmMean, ewmMeanAux_replicate_none, ewmMeanAux_some_cons,
    ewmMeanAux_map_some]

/-- C4 (amended): in the enriched frame, EMA9 and EMA21 follow the
standard EMA recurrence on close with `α = 2/(N+1)`, but they are seeded
at bar `N-1` with the simple moving average of the first `N` closes and
are undefined (NaN) for the first `N-1` bars — not seeded from the first
close, and not defined from the very first bar. -/
theorem c4_ema_sma_seed (f : Frame) (hne : f.bars ≠ []) :
    (9 ≤ f.bars.length →
      (compute_indicators f).ema9 =
        some (ema_spec_sma 9 (f.bars.map (·.close)))) ∧
    (21 ≤ f.bars.length →
      (compute_indicators f).ema21 =
        some (ema_spec_sma 21 (f.bars.map (·.close)))) := by
  constructor <;> intro h
  · show (compute_indicators f).ema9 = _
    unfold compute_indicators
    rw [if_neg hne]
    simp only
    rw [ta_ema_eq_sma_spec 9 _ (by simpa using h)]
  · show (compute_indicators f).ema21 = _
    unfold compute_indicators
    rw [if_neg hne]
    simp only
    rw [ta_ema_eq_sma_spec 21 _ (by simpa using h)]

/-- A 21-bar constant series used to instantiate the EMA results. -/
def c4bars : List Bar := List.replicate 21 ⟨100, 110, 90, 100, 1000⟩

/-- C4 witness: the amended EMA characterisation instantiated on a
concrete 21-bar frame. -/
theorem c4_ema_sma_seed_witness :
    (compute_indicators (rawFrame c4bars)).ema9 =
      some (ema_spec_sma 9 ((rawFrame c4bars).bars.map (·.close))) :=
  (c4_ema_sma_seed (rawFrame c4bars) (by decide)).1 (by decide)

/-- C4 counterexample: on a 9-bar frame the EMA9 column of the enriched
series is undefined (NaN) at the very first bar, contradicting the
claimed absence of a leading undefined warm-up period. -/
theorem c4_warmup_counterexample :
    ((compute_indicators
        (rawFrame (List.replicate 9 ⟨100, 110, 90, 100, 1000⟩))).ema9.getD
      []).head? = some none := by decide!

/-- Minimum of the `low` column over a window of bars. -/
def lowsMin : List Bar → ℚ
  | [] => 0
  | [b] => b.low
  | b :: bs => min b.low (lowsMin bs)

/-- Maximum of the `high` column over a window of bars. -/
def highsMax : List Bar → ℚ
  | [] => 0
  | [b] => b.high
  | b :: bs => max b.high (highsMax bs)

theorem lowsMin_le {b : Bar} : ∀ {bars : List Bar}, b ∈ bars →
    lowsMin bars ≤ b.low
  | [], h => absurd h (List.not_mem_nil b)
  | [c], h => by
    rcases List.mem_singleton.mp h with rfl
    exact le_refl _
  | c :: d :: t, h => by
    rcases List.mem_cons.mp h with rfl | h
    · exact min_le_left _ _
    · exact le_trans (min_le_right _ _) (lowsMin_le h)

theorem le_highsMax {b : Bar} : ∀ {bars : List Bar}, b ∈ bars →
    b.high ≤ highsMax bars
  | [], h => absurd h (List.not_mem_nil b)
  | [c], h => by
    rcases List.mem_singleton.mp h with rfl
    exact le_refl _
  | c :: d :: t, h => by
    rcases List.mem_cons.mp h with rfl | h
    · exact le_max_left _ _
    · exact le_trans (le_highsMax h) (le_max_right _ _)

/-- The typical price of a bar satisfying the bar invariant lies between
its low and its high. -/
theorem typical_price_bounds {b : Bar} (h1 : b.low ≤ b.open_)
    (h2 : b.open_ ≤ b.high) (h3 : b.low ≤ b.close) (h4 : b.close ≤ b.high) :
    b.low ≤ (b.high + b.low + b.close) / 3 ∧
      (b.high + b.low + b.close) / 3 ≤ b.high := by
  constructor <;> [rw [le_div_iff₀ (by norm_num : (0:ℚ) < 3)];
    rw [div_le_iff₀ (by norm_num : (0:ℚ) < 3)]] <;> linarith

/-- Weighted-sum bounds: if every bar's typical price lies in `[m, M]` and
volumes are nonnegative, the total typical-price-volume lies between
`m`/`M` times the total volume. -/
theorem tpv_sum_bounds (m M : ℚ) :
    ∀ bars : List Bar,
      (∀ b ∈ bars, 0 ≤ b.volume ∧ m ≤ (b.high + b.low + b.close) / 3 ∧
        (b.high + b.low + b.close) / 3 ≤ M) →
      m * (bars.map (·.volume)).sum ≤
          (bars.map fun b => (b.high + b.low + b.close) / 3 * b.volume).sum ∧
        (bars.map fun b => (b.high + b.low + b.close) / 3 * b.volume).sum ≤
          M * (bars.map (·.volume)).sum
  | [], _ => by simp
  | b :: bs, h => by
    obtain ⟨hv, hm, hM⟩ := h b (List.mem_cons_self b bs)
    obtain ⟨ih1, ih2⟩ := tpv_sum_bounds m M bs fun c hc =>
      h c (List.mem_cons_of_mem b hc)
    constructor
    · calc m * ((b :: bs).map (·.volume)).sum
          = m * b.volume + m * (bs.map (·.volume)).sum := by
            simp [mul_add]
      _ ≤ (b.high + b.low + b.close) / 3 * b.volume +
            (bs.map fun b => (b.high + b.low + b.close) / 3 * b.volume).sum :=
            add_le_add (mul_le_mul_of_nonneg_right hm hv) ih1
      _ = ((b :: bs).map fun b =>
            (b.high + b.low + b.close) / 3 * b.volume).sum := by simp
    · calc ((b :: bs).map fun b =>
            (b.high + b.low + b.close) / 3 * b.volume).sum
          = (b.high + b.low + b.close) / 3 * b.volume +
            (bs.map fun b => (b.high + b.low + b.close) / 3 * b.volume).sum := by
            simp
      _ ≤ M * b.volume + M * (bs.map (·.volume)).sum :=
            add_le_add (mul_le_mul_of_nonneg_right hM hv) ih2
      _ = M * ((b :: bs).map (·.volume)).sum := by simp [mul_add]

theorem vols_sum_pos :
    ∀ bars : List Bar, (∀ b ∈ bars, 0 ≤ b.volume) →
      (∃ b ∈ bars, 0 < b.volume) → 0 < (bars.map (·.volume)).sum
  | [], _, hpos => by simp at hpos
  | b :: bs, hnn, hpos => by
    have hrest : 0 ≤ (bs.map (·.volume)).sum :=
      List.sum_nonneg fun x hx => by
        obtain ⟨c, hc, rfl⟩ := List.mem_map.mp hx
        exact hnn c (List.mem_cons_of_mem b hc)
    rcases hpos with ⟨c, hc, hcpos⟩
    rcases List.mem_cons.mp hc with rfl | hc
    · have : (0:ℚ) < c.volume + (bs.map (·.volume)).sum := by linarith
      simpa using this
    · have hhead : 0 ≤ b.volume := hnn b (List.mem_cons_self b bs)
      have : 0 < (bs.map (·.volume)).sum :=
        vols_sum_pos bs (fun x hx => hnn x (List.mem_cons_of_mem b hx))
          ⟨c, hc, hcpos⟩
      have : (0:ℚ) < b.volume + (bs.map (·.volume)).sum := by linarith
      simpa using this

theorem getLast?_cons_ne {α : Type} (x : α) {l : List α} (h : l ≠ []) :
    (x :: l).getLast? = l.getLast? := by
  cases l with
  | nil => exact absurd rfl h
  | cons y t => rw [List.getLast?_cons_cons]

theorem cumsum_length : ∀ xs : List ℚ, (cumsum xs).length = xs.length
  | [] => rfl
  | x :: xs => by simp [cumsum, cumsum_length xs]

theorem cumsum_getLast? : ∀ (x : ℚ) (xs : List ℚ),
    (cumsum (x :: xs)).getLast? = some ((x :: xs).sum)
  | x, [] => by simp [cumsum]
  | x, y :: ys => by
    have ih := cumsum_getLast? y ys
    have hne : (cumsum (y :: ys)).map (x + ·) ≠ [] := by simp [cumsum]
    calc (cumsum (x :: y :: ys)).getLast?
        = ((cumsum (y :: ys)).map (x + ·)).getLast? := by
          rw [cumsum]; exact getLast?_cons_ne _ hne
    _ = ((cumsum (y :: ys)).getLast?).map (x + ·) := List.getLast?_map _ _
    _ = some (x + (y :: ys).sum) := by rw [ih]; rfl
    _ = some ((x :: y :: ys).sum) := by simp

theorem zipWith_getLast? {α β γ : Type} (f : α → β → γ) :
    ∀ (xs : List α) (ys : List β) (a : α) (b : β),
      xs.length = ys.length → xs.getLast? = some a → ys.getLast? = some b →
      (List.zipWith f xs ys).getLast? = some (f a b)
  | [], [], _, _, _, ha, _ => by simp at ha
  | [x], [y], a, b, _, ha, hb => by
    simp only [List.getLast?_singleton, Option.some.injEq] at ha hb
    subst ha; subst hb
    rfl
  | [], _ :: _, _, _, hlen, _, _ => by simp at hlen
  | _ :: _, [], _, _, hlen, _, _ => by simp at hlen
  | x :: x2 :: xt, [y], _, _, hlen, _, _ => by simp at hlen
  | [x], y :: y2 :: yt, _, _, hlen, _, _ => by simp at hlen
  | x :: x2 :: xt, y :: y2 :: yt, a, b, hlen, ha, hb => by
    rw [List.getLast?_cons_cons] at ha hb
    have := zipWith_getLast? f (x2 :: xt) (y2 :: yt) a b
      (by simpa using hlen) ha hb
    calc (List.zipWith f (x :: x2 :: xt) (y :: y2 :: yt)).getLast?
        = (f x y :: List.zipWith f (x2 :: xt) (y2 :: yt)).getLast? := rfl
    _ = (List.zipWith f (x2 :: xt) (y2 :: yt)).getLast? :=
        getLast?_cons_ne _ (by simp)
    _ = some (f a b) := this

/-- C7: for a non-empty window of bars satisfying the bar invariant with
nonnegative volumes and at least one strictly positive volume, the VWAP of
the window (the last entry of the VWAP column of the enriched frame) is
defined and lies within `[min low, max high]` over the window. -/
theorem c7_vwap_bounded (bars : List Bar) (hne : bars ≠ [])
    (hinv : ∀ b ∈ bars, b.low ≤ b.open_ ∧ b.open_ ≤ b.high ∧
      b.low ≤ b.close ∧ b.close ≤ b.high ∧ 0 ≤ b.volume)
    (hpos : ∃ b ∈ bars, 0 < b.volume) :
    ∃ w, ((compute_indicators (rawFrame bars)).vwap.getD []).getLast? =
        some (some w) ∧
      lowsMin bars ≤ w ∧ w ≤ highsMax bars := by
  obtain ⟨b0, bt, rfl⟩ : ∃ b0 bt, bars = b0 :: bt :=
    match bars, hne with
    | b :: bs, _ => ⟨b, bs, rfl⟩
  set bars := b0 :: bt
  have hV : 0 < (bars.map (·.volume)).sum :=
    vols_sum_pos bars (fun b hb => (hinv b hb).2.2.2.2) hpos
  have hbnd := tpv_sum_bounds (lowsMin bars) (highsMax bars) bars
    (fun b hb => by
      obtain ⟨h1, h2, h3, h4, h5⟩ := hinv b hb
      obtain ⟨htp1, htp2⟩ := typical_price_bounds h1 h2 h3 h4
      exact ⟨h5, le_trans (lowsMin_le hb) htp1,
        le_trans htp2 (le_highsMax hb)⟩)
  have hTlast : (cumsum (bars.map fun b =>
      (b.high + b.low + b.close) / 3 * b.volume)).getLast? =
        some ((bars.map fun b => (b.high + b.low + b.close) / 3 * b.volume).sum) := by
    simpa using cumsum_getLast?
      ((b0.high + b0.low + b0.close) / 3 * b0.volume)
      (bt.map fun b => (b.high + b.low + b.close) / 3 * b.volume)
  have hVlast : (cumsum (bars.map (·.volume))).getLast? =
      some ((bars.map (·.volume)).sum) := by
    simpa using cumsum_getLast? b0.volume (bt.map (·.volume))
  have hcols : (compute_indicators (rawFrame bars)).vwap =
      some (List.zipWith (fun t v => if v = 0 then none else some (t / v))
        (cumsum (bars.map fun b => (b.high + b.low + b.close) / 3 * b.volume))
        (cumsum (bars.map (·.volume)))) := by
    unfold compute_indicators
    rw [if_neg (by simp [bars, rawFrame])]
    rfl
  refine ⟨(bars.map fun b => (b.high + b.low + b.close) / 3 * b.volume).sum /
      (bars.map (·.volume)).sum, ?_, ?_, ?_⟩
  · rw [hcols]
    simp only [Option.getD_some]
    rw [zipWith_getLast? _ _ _ _ _ (by simp [cumsum_length]) hTlast hVlast]
    rw [if_neg (ne_of_gt hV)]
  · exact (le_div_iff₀ hV).mpr hbnd.1
  · exact (div_le_iff₀ hV).mpr hbnd.2

/-- C7 witness: the VWAP bound instantiated on a concrete two-bar window. -/
theorem c7_vwap_bounded_witness :
    ∃ w, ((compute_indicators
        (rawFrame [⟨100, 120, 90, 110, 5⟩, ⟨110, 130, 100, 120, 3⟩])).vwap.getD
      []).getLast? = some (some w) ∧
      lowsMin [⟨100, 120, 90, 110, 5⟩, ⟨110, 130, 100, 120, 3⟩] ≤ w ∧
      w ≤ highsMax [⟨100, 120, 90, 110, 5⟩, ⟨110, 130, 100, 120, 3⟩] :=
  c7_vwap_bounded _ (by decide) (by norm_num)
    ⟨⟨100, 120, 90, 110, 5⟩, by norm_num, by norm_num⟩

/-! ## Mover ranking (`select_top_movers`, source lines 94–132)

External fetch is modelled by supplying each symbol's already-downloaded
bar list; a failed fetch / empty download is an empty list, which the
source skips (`continue`).  `df_rec.sort_values(by='score',
ascending=False)` is modelled after pandas `nargsort` with
`ascending=False`: the rows with defined score are reversed, argsorted
ascending (stably), and the resulting order is reversed again — so ties
keep their original order — followed by the rows whose score is NaN in
their original order (`na_position='last'`). -/

/-- One row of `df_rec.to_dict('records')`. -/
structure MoverRecord where
  symbol : String
  pct_change : ℚ
  vol_ratio : Option ℚ
  atr_pct : Option ℚ
  price : ℚ
  score : Option ℚ
deriving DecidableEq

/-- The last cell of a derived column (`df['col'].iloc[-1]`), undefined
when the column is absent or its last cell is NaN. -/
def lastCell (col : Option (List (Option ℚ))) : Option ℚ :=
  match col with
  | none => none
  | some l => l.getLast?.join

/-- The per-symbol record built inside the loop of `select_top_movers`
(source lines 104–121): skip empty downloads, enrich, then read the
latest row.  `score` is not yet assigned here (the source adds the score
column afterwards). -/
def mkRecord (sym : String) (bars : List Bar) : Option MoverRecord :=
  match bars with
  | [] => none
  | b0 :: bt =>
    let f := compute_indicators (rawFrame (b0 :: bt))
    let lastClose := ((b0 :: bt).getLast (List.cons_ne_nil b0 bt)).close
    some
      { symbol := sym
        pct_change := (lastClose - b0.open_) / b0.open_ * 100
        vol_ratio := lastCell f.vol_ratio
        atr_pct := lastCell f.atr_pct
        price := lastClose
        score := none }

/-- Score column `df_rec['score'] = vol_ratio*2.0 + atr_pct*1.0 + abs(pct_change)*1.0`
(source line 129); NaN inputs make the score NaN. -/
def addScore (r : MoverRecord) : MoverRecord :=
  { r with
    score :=
      match r.vol_ratio, r.atr_pct with
      | some v, some a => some (v * 2 + a * 1 + |r.pct_change| * 1)
      | _, _ => none }

/-- Sort key of a scored row (only applied to rows with a defined score). -/
def scoreKey (r : MoverRecord) : ℚ := r.score.getD 0

/-- Function `select_top_movers(symbol_list, ...)`: build records, score, sort by
score descending with NaN scores last, take the first `top_n`. -/
def select_top_movers (input : List (String × List Bar)) (top_n : ℕ) :
    List MoverRecord :=
  let recs := (input.filterMap fun p => mkRecord p.1 p.2).map addScore
  let withScore := recs.filter fun r => r.score.isSome
  let nanScore := recs.filter fun r => !r.score.isSome
  ((List.insertionSort (fun a b => scoreKey a ≤ scoreKey b)
      withScore.reverse).reverse ++ nanScore).take top_n

/-- Every ranked record is a scored copy of a built record. -/
theorem mem_select_top_movers {input : List (String × List Bar)}
    {top_n : ℕ} {r : MoverRecord}
    (h : r ∈ select_top_movers input top_n) :
    ∃ p ∈ input, ∃ r0, mkRecord p.1 p.2 = some r0 ∧ r = addScore r0 := by
  unfold select_top_movers at h
  have h1 := List.mem_of_mem_take h
  have h2 : r ∈ (input.filterMap fun p => mkRecord p.1 p.2).map addScore := by
    rcases List.mem_append.mp h1 with h3 | h3
    · exact List.mem_filter.mp
        (List.mem_reverse.mp
          ((List.perm_insertionSort _ _).mem_iff.mp
            (List.mem_reverse.mp h3))) |>.1
    · exact (List.mem_filter.mp h3).1
  obtain ⟨r0, hr0, rfl⟩ := List.mem_map.mp h2
  obtain ⟨p, hp, hmk⟩ := List.mem_filterMap.mp hr0
  exact ⟨p, hp, r0, hmk, rfl⟩

/-- C10: every record produced by the mover ranking carries the composite
score `2.0 × volume-ratio + 1.0 × ATR-percent + 1.0 × |percent-change|`;
the weights appear nowhere as parameters of `select_top_movers`. -/
theorem c10_score_formula (input : List (String × List Bar)) (top_n : ℕ)
    (r : MoverRecord) (h : r ∈ select_top_movers input top_n) :
    r.score =
      match r.vol_ratio, r.atr_pct with
      | some v, some a => some (2 * v + 1 * a + 1 * |r.pct_change|)
      | _, _ => none := by
  obtain ⟨p, hp, r0, hmk, rfl⟩ := mem_select_top_movers h
  rcases hv : r0.vol_ratio with - | v <;> rcases ha : r0.atr_pct with - | a <;>
    simp [addScore, hv, ha]
  ring

/-- The record the mover ranking produces for a 15-bar constant series:
volume ratio 1, ATR-percent 30, percent change 0, hence score 32. -/
def c10rec : MoverRecord :=
  { symbol := "X", pct_change := 0, vol_ratio := some 1, atr_pct := some 30,
    price := 100, score := some 32 }

/-- C10 witness: the score law instantiated on a concrete ranked record
(`2·1 + 1·30 + 1·|0| = 32`). -/
theorem c10_score_formula_witness :
    c10rec ∈ select_top_movers
        [(("X" : String), List.replicate 15 ⟨100, 120, 90, 100, 1000⟩)] 8 ∧
      c10rec.score =
        match c10rec.vol_ratio, c10rec.atr_pct with
        | some v, some a => some (2 * v + 1 * a + 1 * |c10rec.pct_change|)
        | _, _ => none :=
  ⟨by decide!,
    c10_score_formula
      [(("X" : String), List.replicate 15 ⟨100, 120, 90, 100, 1000⟩)] 8
      c10rec (by decide!)⟩

/-- C5 (amended): every ranked record's percent-change field equals
`100 × (latest close − first bar's OPEN price) / first bar's open price` —
the reference price is the window-opening *open*, not the opening close. -/
theorem c5_pct_change_from_open (input : List (String × List Bar))
    (top_n : ℕ) (r : MoverRecord)
    (h : r ∈ select_top_movers input top_n) :
    ∃ bars, (r.symbol, bars) ∈ input ∧ ∃ b0 bL,
      bars.head? = some b0 ∧ bars.getLast? = some bL ∧
      r.pct_change = (bL.close - b0.open_) / b0.open_ * 100 := by
  obtain ⟨⟨sym, bars⟩, hp, r0, hmk, rfl⟩ := mem_select_top_movers h
  match bars, hmk with
  | b0 :: bt, hmk =>
    simp only [mkRecord, Option.some.injEq] at hmk
    refine ⟨b0 :: bt, ?_, b0, (b0 :: bt).getLast (List.cons_ne_nil b0 bt),
      rfl, (List.getLast?_eq_getLast _ _).symm ▸ rfl, ?_⟩
    · have hsym : (addScore r0).symbol = sym := by
        rw [← hmk]; rfl
      rw [hsym]; exact hp
    · rw [← hmk]; rfl

/-- C5 witness: the open-based percent change instantiated on a concrete
one-symbol universe. -/
theorem c5_pct_change_from_open_witness :
    ∃ bars, (("X" : String), bars) ∈
        [(("X" : String), [(⟨100, 120, 90, 110, 1000⟩ : Bar)])] ∧ ∃ b0 bL,
      bars.head? = some b0 ∧ bars.getLast? = some bL ∧
      (10 : ℚ) = (bL.close - b0.open_) / b0.open_ * 100 := by
  have h : ∀ r ∈ select_top_movers
      [(("X" : String), [(⟨100, 120, 90, 110, 1000⟩ : Bar)])] 8,
      ∃ bars, (r.symbol, bars) ∈
          [(("X" : String), [(⟨100, 120, 90, 110, 1000⟩ : Bar)])] ∧ ∃ b0 bL,
        bars.head? = some b0 ∧ bars.getLast? = some bL ∧
        r.pct_change = (bL.close - b0.open_) / b0.open_ * 100 :=
    fun r hr => c5_pct_change_from_open _ 8 r hr
  have hr : ∀ r ∈ select_top_movers
      [(("X" : String), [(⟨100, 120, 90, 110, 1000⟩ : Bar)])] 8,
      r.symbol = "X" ∧ r.pct_change = 10 := by decide!
  have hne : select_top_movers
      [(("X" : String), [(⟨100, 120, 90, 110, 1000⟩ : Bar)])] 8 ≠ [] := by
    decide!
  obtain ⟨r, hrm⟩ := List.exists_mem_of_ne_nil _ hne
  obtain ⟨bars, hbars, b0, bL, hh, hl, hpct⟩ := h r hrm
  obtain ⟨hsym, hpc⟩ := hr r hrm
  exact ⟨bars, hsym ▸ hbars, b0, bL, hh, hl, hpc ▸ hpct⟩

/-- C5 counterexample: on a window whose first bar opens at 100 and closes
at 110 (latest close 110), the ranking reports a 10 % change, while the
claimed close-based formula gives 0 % — the claim's formula does not match
the produced field. -/
theorem c5_close_formula_counterexample :
    (select_top_movers [(("X" : String),
        [(⟨100, 120, 90, 110, 1000⟩ : Bar)])] 8).map (·.pct_change) =
        [10] ∧
      ((110 - 110 : ℚ) / 110 * 100) ≠ 10 := by
  constructor
  · decide!
  · norm_num

/-- Ranked at least as high: score descending, with NaN scores ranked
below every defined score. -/
def scoreDescGe (a b : MoverRecord) : Prop :=
  match a.score, b.score with
  | some x, some y => y ≤ x
  | some _, none => True
  | none, none => True
  | none, some _ => False

theorem pairwise_scoreDescGe_of_none :
    ∀ l : List MoverRecord, (∀ r ∈ l, r.score = none) →
      l.Pairwise scoreDescGe
  | [], _ => List.Pairwise.nil
  | x :: xs, h => by
    refine List.Pairwise.cons (fun b hb => ?_)
      (pairwise_scoreDescGe_of_none xs fun r hr =>
        h r (List.mem_cons_of_mem x hr))
    have hx := h x (List.mem_cons_self x xs)
    have hbn := h b (List.mem_cons_of_mem x hb)
    simp [scoreDescGe, hx, hbn]

/-- C6 (amended): the mover ranking lists records in nonincreasing order
of composite score, records with undefined (NaN) score coming last; equal
scores are *not* tie-broken by symbol name (they simply retain their input
order). -/
theorem c6_sorted_by_score_desc (input : List (String × List Bar))
    (top_n : ℕ) :
    (select_top_movers input top_n).Pairwise scoreDescGe := by
  haveI : IsTotal MoverRecord (fun a b => scoreKey a ≤ scoreKey b) :=
    ⟨fun a b => le_total _ _⟩
  haveI : IsTrans MoverRecord (fun a b => scoreKey a ≤ scoreKey b) :=
    ⟨fun a b c hab hbc => le_trans hab hbc⟩
  unfold select_top_movers
  apply List.Pairwise.sublist (List.take_sublist _ _)
  rw [List.pairwise_append]
  refine ⟨?_, ?_, ?_⟩
  · rw [List.pairwise_reverse]
    have hs := List.sorted_insertionSort
      (fun a b => scoreKey a ≤ scoreKey b)
      (((input.filterMap fun p => mkRecord p.1 p.2).map addScore).filter
          (fun r => r.score.isSome)).reverse
    refine hs.imp_of_mem (fun {a b} ha hb hab => ?_)
    have hsa : a.score.isSome :=
      (List.mem_filter.mp (List.mem_reverse.mp
        ((List.perm_insertionSort _ _).mem_iff.mp ha))).2
    have hsb : b.score.isSome :=
      (List.mem_filter.mp (List.mem_reverse.mp
        ((List.perm_insertionSort _ _).mem_iff.mp hb))).2
    obtain ⟨x, hx⟩ := Option.isSome_iff_exists.mp hsa
    obtain ⟨y, hy⟩ := Option.isSome_iff_exists.mp hsb
    have hle : a.score.getD 0 ≤ b.score.getD 0 := hab
    rw [hx, hy] at hle
    simpa [scoreDescGe, hx, hy] using hle
  · exact pairwise_scoreDescGe_of_none _ fun r hr =>
      Option.not_isSome_iff_eq_none.mp
        (by simpa using (List.mem_filter.mp hr).2)
  · intro a ha b hb
    have hsa : a.score.isSome :=
      (List.mem_filter.mp (List.mem_reverse.mp
        ((List.perm_insertionSort _ _).mem_iff.mp
          (List.mem_reverse.mp ha)))).2
    have hsb : b.score = none :=
      Option.not_isSome_iff_eq_none.mp
        (by simpa using (List.mem_filter.mp hb).2)
    obtain ⟨x, hx⟩ := Option.isSome_iff_exists.mp hsa
    simp [scoreDescGe, hx, hsb]

/-- A 15-bar constant series: long enough for every score input (ATR needs
14 smoothed true ranges) to be defined, and identical across symbols so
that scores tie exactly. -/
def c6bars : List Bar := List.replicate 15 ⟨100, 120, 90, 100, 1000⟩

/-- C6 counterexample: two symbols with exactly equal defined scores are
returned in their input order ("BBB" first), not in ascending symbol-name
order — the code applies no symbol-name tie-break. -/
theorem c6_no_name_tiebreak_counterexample :
    ((select_top_movers [("BBB", c6bars), ("AAA", c6bars)] 8).map
        (·.symbol) = ["BBB", "AAA"]) ∧
      ((select_top_movers [("BBB", c6bars), ("AAA", c6bars)] 8).map
          (·.score)).head? =
        ((select_top_movers [("BBB", c6bars), ("AAA", c6bars)] 8).map
          (·.score)).getLast? ∧
      ((select_top_movers [("BBB", c6bars), ("AAA", c6bars)] 8).map
          (·.score)).all (·.isSome) = true ∧
      ("AAA" : String) < "BBB" := by decide!
